import Mathlib

/-!
Verification development for the CEFET-MG survey dashboard repository.

The repository consists of three near-duplicate Streamlit applications
(`streamlit_app.py`, `streamlit_app_cefet.py`, `JOAO-cefet-main/streamlit_app.py`)
and a column-mapping helper (`column_mapping.py`).  The definitions below are a
shallow embedding of the data-processing functions those files contain:

* `pySlugify` / `slugify`          — `column_mapping.py::_slugify`
* `load_mapping` / `apply_column_mapping` — `column_mapping.py`
* `inferMapping`                   — `column_mapping.py::_infer_mapping_from_df`
* `apply_mapping`                  — `streamlit_app_cefet.py::apply_mapping`
* `processar_dados`                — `streamlit_app.py::processar_dados` and
                                     `streamlit_app_cefet.py::process_data`
* `likert_to_index`                — `JOAO-cefet-main/streamlit_app.py::likert_to_index`
* `create_likert_matrix`           — `JOAO-cefet-main/streamlit_app.py::create_likert_matrix`
                                     (the per-question slice of the loop body)
* `cbdrCounts`                     — the distinct-respondent counting used in
                                     `show_retention_and_evasion`
* `ageBucketCounts`                — the age bucketing in `show_detailed_profile`
* `profileAgeCounts`               — the age bucketing in
                                     `streamlit_app_cefet.py::show_profile_analysis`

Cells of the spreadsheet are modelled as `Option String` (`none` is a missing
value, pandas `NaN`).  Machine floats that carry exact survey statistics are
modelled as `ℚ`; the pandas float `NaN` that `Series.mean` can return is made
explicit by the `LikertMean` type.
-/

/-! ## Character-level model of `column_mapping.py::_slugify`

Python:
```
text = unicodedata.normalize("NFKD", str(text))
text = "".join(ch for ch in text if not unicodedata.combining(ch))
text = re.sub(r"[^0-9a-zA-Z]+", "_", text).strip("_").lower()
text = re.sub(r"_+", "_", text)
```
-/

/-- The character class `[0-9a-zA-Z]` of the regular expressions in `_slugify`
(ASCII ranges only, exactly as the Python pattern). -/
def isPyAlnum (c : Char) : Bool :=
  decide ((48 ≤ c.toNat ∧ c.toNat ≤ 57) ∨ (97 ≤ c.toNat ∧ c.toNat ≤ 122) ∨
    (65 ≤ c.toNat ∧ c.toNat ≤ 90))

/-- The underscore character test used by `strip("_")` and `re.sub(r"_+", "_", .)`. -/
def isUnd (c : Char) : Bool :=
  decide (c = '_')

/-- Modelled `unicodedata.combining`: true on the combining diacritical marks
block U+0300 to U+036F, the block produced by decomposing Latin letters. -/
def pyCombining (c : Char) : Bool :=
  decide (768 ≤ c.toNat ∧ c.toNat ≤ 879)

/-- Modelled `unicodedata.normalize("NFKD", _)`, per character: NFKD is the
identity on ASCII; accented Latin-1 letters decompose into the base letter
followed by a combining mark (a representative table of the letters appearing
in the survey headers; any other non-ASCII character is kept unchanged, which
is immaterial because the later substitution collapses every non-alphanumeric
character anyway). -/
def nfkdChar (c : Char) : List Char :=
  if c.toNat < 128 then [c]
  else if c = 'á' then ['a', Char.ofNat 769]
  else if c = 'à' then ['a', Char.ofNat 768]
  else if c = 'â' then ['a', Char.ofNat 770]
  else if c = 'ã' then ['a', Char.ofNat 771]
  else if c = 'é' then ['e', Char.ofNat 769]
  else if c = 'ê' then ['e', Char.ofNat 770]
  else if c = 'í' then ['i', Char.ofNat 769]
  else if c = 'ó' then ['o', Char.ofNat 769]
  else if c = 'ô' then ['o', Char.ofNat 770]
  else if c = 'õ' then ['o', Char.ofNat 771]
  else if c = 'ú' then ['u', Char.ofNat 769]
  else if c = 'ü' then ['u', Char.ofNat 776]
  else if c = 'ç' then ['c', Char.ofNat 807]
  else if c = 'Á' then ['A', Char.ofNat 769]
  else if c = 'É' then ['E', Char.ofNat 769]
  else if c = 'Ç' then ['C', Char.ofNat 807]
  else [c]

/-- Lines 9 and 10 of `column_mapping.py`: NFKD-normalize, then drop combining
marks. -/
def pyNFKDStrip (l : List Char) : List Char :=
  ((l.map nfkdChar).flatten).filter (fun c => ¬ pyCombining c)

/-- `re.sub(r"[^0-9a-zA-Z]+", "_", text)`: replace every maximal run of
characters outside `[0-9a-zA-Z]` by a single underscore.  The boolean state
records whether the previous character was part of such a run. -/
def subAux : Bool → List Char → List Char
  | _, [] => []
  | inRun, c :: cs =>
    if isPyAlnum c then c :: subAux false cs
    else if inRun then subAux inRun cs
    else '_' :: subAux true cs

/-- The substitution applied to a whole string (initially not inside a run). -/
def subNonAlnum (l : List Char) : List Char :=
  subAux false l

/-- Helper for Python `str.strip("_")`: remove trailing underscores. -/
def dropTrailUnd : List Char → List Char
  | [] => []
  | c :: cs =>
    match dropTrailUnd cs with
    | [] => if isUnd c then [] else [c]
    | r => c :: r

/-- Python `str.strip("_")`: remove leading and trailing underscores. -/
def stripUnd (l : List Char) : List Char :=
  dropTrailUnd (l.dropWhile isUnd)

/-- Python `str.lower` on the ASCII range (the substitution that precedes the
call guarantees every character is ASCII alphanumeric or an underscore). -/
def pyToLower (c : Char) : Char :=
  if 65 ≤ c.toNat ∧ c.toNat ≤ 90 then Char.ofNat (c.toNat + 32) else c

/-- `re.sub(r"_+", "_", text)`: collapse runs of underscores to a single one. -/
def dedupeUndAux : Bool → List Char → List Char
  | _, [] => []
  | inRun, c :: cs =>
    if isUnd c then
      if inRun then dedupeUndAux inRun cs else c :: dedupeUndAux true cs
    else c :: dedupeUndAux false cs

/-- `column_mapping.py::_slugify` on a list of characters: NFKD + strip
combining marks, substitute non-alphanumeric runs, strip underscores,
lowercase, collapse underscore runs.  (The `if text is None: return ""` and
`str(text)` coercions of the source concern non-string inputs, which a string
model has no inhabitant for.) -/
def pySlugify (l : List Char) : List Char :=
  dedupeUndAux false ((stripUnd (subNonAlnum (pyNFKDStrip l))).map pyToLower)

/-- `_slugify` as a function on strings. -/
def slugify (s : String) : String :=
  String.mk (pySlugify s.data)

/-- Characters allowed in a slug: `[a-z0-9_]`. -/
def isSlugChar (c : Char) : Bool :=
  decide ((48 ≤ c.toNat ∧ c.toNat ≤ 57) ∨ (97 ≤ c.toNat ∧ c.toNat ≤ 122) ∨ c = '_')

/-- No two adjacent underscores. -/
def noDoubleUnd : List Char → Bool
  | c :: d :: r => (!(isUnd c && isUnd d)) && noDoubleUnd (d :: r)
  | _ => true

/-- The head, if any, is not an underscore. -/
def headNotUnd : List Char → Bool
  | [] => true
  | c :: _ => !isUnd c

/-- The last character, if any, is not an underscore. -/
def lastNotUnd : List Char → Bool
  | [] => true
  | [c] => !isUnd c
  | _ :: c :: r => lastNotUnd (c :: r)

/-- Canonical slug shape: only `[a-z0-9_]` characters, no leading, trailing or
doubled underscore. -/
def canonSlug (l : List Char) : Bool :=
  l.all isSlugChar && noDoubleUnd l && headNotUnd l && lastNotUnd l

/-! ### Shape lemmas for the slugify pipeline -/

theorem toNat_ofNat_valid (n : ℕ) (h : n < 55296) : (Char.ofNat n).toNat = n := by
  have hv : Nat.isValidChar n := Or.inl h
  simp only [Char.ofNat, dif_pos hv, Char.ofNatAux, Char.toNat, UInt32.toNat]
  simp [BitVec.toNat_ofNat]

theorem isUnd_eq (c : Char) : isUnd c = true ↔ c = '_' := by
  simp [isUnd]

theorem isPyAlnum_not_und (c : Char) (h : isPyAlnum c = true) : isUnd c = false := by
  simp only [isPyAlnum, decide_eq_true_eq] at h
  simp only [isUnd, decide_eq_false_iff_not]
  intro hc
  subst hc
  revert h
  decide

theorem noDoubleUnd_tail (c : Char) (l : List Char)
    (h : noDoubleUnd (c :: l) = true) : noDoubleUnd l = true := by
  cases l with
  | nil => rfl
  | cons d r =>
    simp only [noDoubleUnd, Bool.and_eq_true] at h
    exact h.2

theorem noDoubleUnd_cons_of_not_und (c : Char) (l : List Char)
    (hc : isUnd c = false) : noDoubleUnd (c :: l) = noDoubleUnd l := by
  cases l with
  | nil => simp [noDoubleUnd]
  | cons d r => simp [noDoubleUnd, hc]

theorem noDoubleUnd_cons_head (c : Char) (l : List Char)
    (hl : headNotUnd l = true) : noDoubleUnd (c :: l) = noDoubleUnd l := by
  cases l with
  | nil => simp [noDoubleUnd]
  | cons d r =>
    simp only [headNotUnd, Bool.not_eq_eq_eq_not, Bool.not_true] at hl
    simp [noDoubleUnd, hl]

theorem noDoubleUnd_head (c : Char) (l : List Char)
    (h : noDoubleUnd (c :: l) = true) (hc : isUnd c = true) : headNotUnd l = true := by
  cases l with
  | nil => rfl
  | cons d r =>
    simp only [noDoubleUnd, Bool.and_eq_true, Bool.not_eq_eq_eq_not, Bool.not_true,
      Bool.and_eq_false_iff] at h
    rcases h.1 with h1 | h1
    · rw [hc] at h1; cases h1
    · simpa [headNotUnd] using h1

theorem subAux_all (b : Bool) (l : List Char) :
    (subAux b l).all (fun c => isPyAlnum c || isUnd c) = true := by
  induction l generalizing b with
  | nil => rfl
  | cons c cs ih =>
    by_cases hc : isPyAlnum c = true
    · simpa [subAux, hc] using ih false
    · simp only [Bool.not_eq_true] at hc
      cases b with
      | true => simpa [subAux, hc] using ih true
      | false =>
        have : isUnd '_' = true := by decide
        simpa [subAux, hc, this] using ih true

theorem subAux_true_head (l : List Char) : headNotUnd (subAux true l) = true := by
  induction l with
  | nil => rfl
  | cons c cs ih =>
    by_cases hc : isPyAlnum c = true
    · simp [subAux, hc, headNotUnd, isPyAlnum_not_und c hc]
    · simp only [Bool.not_eq_true] at hc
      simpa [subAux, hc] using ih

theorem subAux_noDoubleUnd (l : List Char) : ∀ b, noDoubleUnd (subAux b l) = true := by
  induction l with
  | nil => intro b; rfl
  | cons c cs ih =>
    intro b
    by_cases hc : isPyAlnum c = true
    · rw [show subAux b (c :: cs) = c :: subAux false cs by simp [subAux, hc],
        noDoubleUnd_cons_of_not_und c _ (isPyAlnum_not_und c hc)]
      exact ih false
    · simp only [Bool.not_eq_true] at hc
      cases b with
      | true => simpa [subAux, hc] using ih true
      | false =>
        rw [show subAux false (c :: cs) = '_' :: subAux true cs by simp [subAux, hc],
          noDoubleUnd_cons_head _ _ (subAux_true_head cs)]
        exact ih true

theorem all_of_subset {l m : List Char} (p : Char → Bool) (hsub : l ⊆ m)
    (h : m.all p = true) : l.all p = true := by
  simp only [List.all_eq_true] at h ⊢
  exact fun c hc => h c (hsub hc)

theorem dropWhile_headNotUnd (l : List Char) : headNotUnd (l.dropWhile isUnd) = true := by
  induction l with
  | nil => rfl
  | cons c cs ih =>
    by_cases hc : isUnd c = true
    · simpa [List.dropWhile, hc] using ih
    · simp only [Bool.not_eq_true] at hc
      simp [List.dropWhile, hc, headNotUnd]

theorem dropWhile_noDoubleUnd (l : List Char) (h : noDoubleUnd l = true) :
    noDoubleUnd (l.dropWhile isUnd) = true := by
  induction l with
  | nil => rfl
  | cons c cs ih =>
    by_cases hc : isUnd c = true
    · simpa [List.dropWhile, hc] using ih (noDoubleUnd_tail c cs h)
    · simp only [Bool.not_eq_true] at hc
      simpa [List.dropWhile, hc] using h

theorem dropTrailUnd_subset (l : List Char) : dropTrailUnd l ⊆ l := by
  induction l with
  | nil => simp [dropTrailUnd]
  | cons c cs ih =>
    simp only [dropTrailUnd]
    cases hr : dropTrailUnd cs with
    | nil =>
      by_cases hc : isUnd c = true
      · simp [hc]
      · simp only [Bool.not_eq_true] at hc
        simp [hc, List.subset_def]
    | cons d r =>
      show c :: d :: r ⊆ c :: cs
      intro x hx
      rcases List.mem_cons.mp hx with h | h
      · exact h ▸ List.mem_cons_self c cs
      · exact List.mem_cons_of_mem c (ih (hr ▸ h))

theorem dropTrailUnd_head (c : Char) (cs : List Char) (d : Char) (r : List Char)
    (h : dropTrailUnd (c :: cs) = d :: r) : d = c := by
  simp only [dropTrailUnd] at h
  cases hr : dropTrailUnd cs with
  | nil =>
    rw [hr] at h
    by_cases hc : isUnd c = true
    · simp [hc] at h
    · simp only [Bool.not_eq_true] at hc
      simp [hc] at h
      exact h.1.symm
  | cons e s =>
    rw [hr] at h
    exact (List.cons.injEq _ _ _ _ ▸ h).1.symm

theorem dropTrailUnd_headNotUnd (l : List Char) (h : headNotUnd l = true) :
    headNotUnd (dropTrailUnd l) = true := by
  cases l with
  | nil => rfl
  | cons c cs =>
    cases hr : dropTrailUnd (c :: cs) with
    | nil => rfl
    | cons d r =>
      rw [dropTrailUnd_head c cs d r hr]
      simpa [headNotUnd] using h

theorem dropTrailUnd_noDoubleUnd (l : List Char) (h : noDoubleUnd l = true) :
    noDoubleUnd (dropTrailUnd l) = true := by
  induction l with
  | nil => rfl
  | cons c cs ih =>
    simp only [dropTrailUnd]
    cases hr : dropTrailUnd cs with
    | nil =>
      by_cases hc : isUnd c = true
      · simp [hc, noDoubleUnd]
      · simp only [Bool.not_eq_true] at hc
        simp [hc, noDoubleUnd]
    | cons d r =>
      have htail : noDoubleUnd (d :: r) = true := hr ▸ ih (noDoubleUnd_tail c cs h)
      cases cs with
      | nil => simp [dropTrailUnd] at hr
      | cons e es =>
        have hd : d = e := dropTrailUnd_head e es d r hr
        subst hd
        simp only [noDoubleUnd, Bool.and_eq_true] at h ⊢
        exact ⟨h.1, htail⟩

theorem dropTrailUnd_lastNotUnd (l : List Char) : lastNotUnd (dropTrailUnd l) = true := by
  induction l with
  | nil => rfl
  | cons c cs ih =>
    simp only [dropTrailUnd]
    cases hr : dropTrailUnd cs with
    | nil =>
      by_cases hc : isUnd c = true
      · simp [hc, lastNotUnd]
      · simp only [Bool.not_eq_true] at hc
        simp [hc, lastNotUnd]
    | cons d r =>
      have := hr ▸ ih
      simpa [lastNotUnd] using this

theorem pyToLower_slug (c : Char) (h : (isPyAlnum c || isUnd c) = true) :
    isSlugChar (pyToLower c) = true := by
  rcases Bool.or_eq_true _ _ |>.mp h with ha | hu
  · simp only [isPyAlnum, decide_eq_true_eq] at ha
    by_cases hup : 65 ≤ c.toNat ∧ c.toNat ≤ 90
    · have : (Char.ofNat (c.toNat + 32)).toNat = c.toNat + 32 :=
        toNat_ofNat_valid _ (by omega)
      simp only [pyToLower, if_pos hup, isSlugChar, decide_eq_true_eq]
      omega
    · simp only [pyToLower, if_neg hup, isSlugChar, decide_eq_true_eq]
      rcases ha with h1 | h1 | h1
      · exact Or.inl h1
      · exact Or.inr (Or.inl h1)
      · exact absurd h1 hup
  · have hc : c = '_' := (isUnd_eq c).mp hu
    subst hc
    decide

theorem pyToLower_und (c : Char) : isUnd (pyToLower c) = isUnd c := by
  by_cases hup : 65 ≤ c.toNat ∧ c.toNat ≤ 90
  · have hv : (Char.ofNat (c.toNat + 32)).toNat = c.toNat + 32 :=
      toNat_ofNat_valid _ (by omega)
    simp only [pyToLower, if_pos hup]
    have h1 : isUnd (Char.ofNat (c.toNat + 32)) = false := by
      simp only [isUnd, decide_eq_false_iff_not]
      intro he
      rw [he] at hv
      have h95 : ('_' : Char).toNat = 95 := by decide
      rw [h95] at hv
      omega
    have h2 : isUnd c = false := by
      simp only [isUnd, decide_eq_false_iff_not]
      intro he
      subst he
      revert hup
      decide
    rw [h1, h2]
  · simp [pyToLower, if_neg hup]

theorem map_pyToLower_headNotUnd (l : List Char) :
    headNotUnd (l.map pyToLower) = headNotUnd l := by
  cases l with
  | nil => rfl
  | cons c cs => simp [headNotUnd, pyToLower_und]

theorem map_pyToLower_noDoubleUnd (l : List Char) :
    noDoubleUnd (l.map pyToLower) = noDoubleUnd l := by
  induction l with
  | nil => rfl
  | cons c cs ih =>
    cases cs with
    | nil => rfl
    | cons d r =>
      simp only [List.map_cons, noDoubleUnd, pyToLower_und]
      rw [show (List.map pyToLower (d :: r)) = pyToLower d :: List.map pyToLower r by simp] at ih
      rw [ih]

theorem map_pyToLower_lastNotUnd (l : List Char) :
    lastNotUnd (l.map pyToLower) = lastNotUnd l := by
  induction l with
  | nil => rfl
  | cons c cs ih =>
    cases cs with
    | nil => simp [lastNotUnd, pyToLower_und]
    | cons d r =>
      simp only [List.map_cons, lastNotUnd] at ih ⊢
      exact ih

theorem map_pyToLower_all (l : List Char)
    (h : l.all (fun c => isPyAlnum c || isUnd c) = true) :
    (l.map pyToLower).all isSlugChar = true := by
  simp only [List.all_eq_true, List.mem_map] at h ⊢
  rintro x ⟨c, hc, rfl⟩
  exact pyToLower_slug c (h c hc)

theorem dedupeUndAux_id (l : List Char) (h : noDoubleUnd l = true) :
    dedupeUndAux false l = l ∧ (headNotUnd l = true → dedupeUndAux true l = l) := by
  induction l with
  | nil => exact ⟨rfl, fun _ => rfl⟩
  | cons c cs ih =>
    by_cases hc : isUnd c = true
    · have hhead : headNotUnd cs = true := noDoubleUnd_head c cs h hc
      have htail : noDoubleUnd cs = true := noDoubleUnd_tail c cs h
      have := (ih htail).2 hhead
      constructor
      · simp [dedupeUndAux, hc, this]
      · intro habs
        simp only [headNotUnd, hc] at habs
        cases habs
    · simp only [Bool.not_eq_true] at hc
      have htail : noDoubleUnd cs = true := noDoubleUnd_tail c cs h
      have := (ih htail).1
      exact ⟨by simp [dedupeUndAux, hc, this], fun _ => by simp [dedupeUndAux, hc, this]⟩

theorem canonSlug_pySlugify (l : List Char) : canonSlug (pySlugify l) = true := by
  set m := subNonAlnum (pyNFKDStrip l) with hm
  have hall : m.all (fun c => isPyAlnum c || isUnd c) = true := subAux_all false _
  have hnd : noDoubleUnd m = true := subAux_noDoubleUnd _ false
  set s := stripUnd m with hs
  have hs_all : s.all (fun c => isPyAlnum c || isUnd c) = true :=
    all_of_subset _ (fun x hx => (List.dropWhile_sublist isUnd).subset
      (dropTrailUnd_subset _ hx)) hall
  have hs_nd : noDoubleUnd s = true :=
    dropTrailUnd_noDoubleUnd _ (dropWhile_noDoubleUnd m hnd)
  have hs_head : headNotUnd s = true :=
    dropTrailUnd_headNotUnd _ (dropWhile_headNotUnd m)
  have hs_last : lastNotUnd s = true := dropTrailUnd_lastNotUnd _
  set t := s.map pyToLower with ht
  have ht_all : t.all isSlugChar = true := map_pyToLower_all s hs_all
  have ht_nd : noDoubleUnd t = true := (map_pyToLower_noDoubleUnd s).trans hs_nd
  have ht_head : headNotUnd t = true := (map_pyToLower_headNotUnd s).trans hs_head
  have ht_last : lastNotUnd t = true := (map_pyToLower_lastNotUnd s).trans hs_last
  have hfinal : pySlugify l = t := by
    rw [show pySlugify l = dedupeUndAux false t from rfl]
    exact (dedupeUndAux_id t ht_nd).1
  rw [hfinal]
  simp [canonSlug, ht_all, ht_nd, ht_head, ht_last]

/-! ### The pipeline is the identity on canonical slugs -/

theorem isSlugChar_cases (c : Char) (h : isSlugChar c = true) :
    (48 ≤ c.toNat ∧ c.toNat ≤ 57) ∨ (97 ≤ c.toNat ∧ c.toNat ≤ 122) ∨ c = '_' := by
  simpa [isSlugChar] using h

theorem nfkdChar_slug (c : Char) (h : isSlugChar c = true) : nfkdChar c = [c] := by
  have hlt : c.toNat < 128 := by
    rcases isSlugChar_cases c h with h1 | h1 | h1
    · omega
    · omega
    · subst h1; decide
  simp [nfkdChar, hlt]

theorem pyCombining_slug (c : Char) (h : isSlugChar c = true) : pyCombining c = false := by
  have hlt : c.toNat < 128 := by
    rcases isSlugChar_cases c h with h1 | h1 | h1
    · omega
    · omega
    · subst h1; decide
  simp only [pyCombining, decide_eq_false_iff_not]
  omega

theorem pyNFKDStrip_id (l : List Char) (h : l.all isSlugChar = true) :
    pyNFKDStrip l = l := by
  induction l with
  | nil => rfl
  | cons c cs ih =>
    simp only [List.all_cons, Bool.and_eq_true] at h
    have hc := h.1
    have hcs := ih h.2
    have hstep : pyNFKDStrip (c :: cs) =
        (nfkdChar c).filter (fun d => ¬ pyCombining d) ++ pyNFKDStrip cs := by
      simp [pyNFKDStrip, List.filter_append]
    rw [hstep, nfkdChar_slug c hc, hcs]
    simp [pyCombining_slug c hc]

theorem isSlugChar_alnum_or_und (c : Char) (h : isSlugChar c = true) :
    (isPyAlnum c = true ∧ isUnd c = false) ∨ (isPyAlnum c = false ∧ isUnd c = true) := by
  have h95 : ('_' : Char).toNat = 95 := by decide
  rcases isSlugChar_cases c h with h1 | h1 | h1
  · refine Or.inl ⟨by simp [isPyAlnum]; omega, ?_⟩
    simp only [isUnd, decide_eq_false_iff_not]
    intro he; subst he; omega
  · refine Or.inl ⟨by simp [isPyAlnum]; omega, ?_⟩
    simp only [isUnd, decide_eq_false_iff_not]
    intro he; subst he; omega
  · subst h1; exact Or.inr ⟨by decide, by decide⟩

theorem subAux_id (l : List Char) (hall : l.all isSlugChar = true)
    (hnd : noDoubleUnd l = true) :
    subAux false l = l ∧ (headNotUnd l = true → subAux true l = l) := by
  induction l with
  | nil => exact ⟨rfl, fun _ => rfl⟩
  | cons c cs ih =>
    simp only [List.all_cons, Bool.and_eq_true] at hall
    have htail := noDoubleUnd_tail c cs hnd
    rcases isSlugChar_alnum_or_und c hall.1 with ⟨ha, _⟩ | ⟨ha, hu⟩
    · have := (ih hall.2 htail).1
      exact ⟨by simp [subAux, ha, this], fun _ => by simp [subAux, ha, this]⟩
    · have hc : c = '_' := (isUnd_eq c).mp hu
      have hhead : headNotUnd cs = true := noDoubleUnd_head c cs hnd hu
      have := (ih hall.2 htail).2 hhead
      subst hc
      constructor
      · simp [subAux, ha, this]
      · intro habs
        simp only [headNotUnd, hu] at habs
        cases habs

theorem dropWhile_isUnd_id (l : List Char) (h : headNotUnd l = true) :
    l.dropWhile isUnd = l := by
  cases l with
  | nil => rfl
  | cons c cs =>
    simp only [headNotUnd, Bool.not_eq_eq_eq_not, Bool.not_true] at h
    simp [List.dropWhile, h]

theorem dropTrailUnd_id (l : List Char) (h : lastNotUnd l = true) :
    dropTrailUnd l = l := by
  induction l with
  | nil => rfl
  | cons c cs ih =>
    cases cs with
    | nil =>
      simp only [lastNotUnd, Bool.not_eq_eq_eq_not, Bool.not_true] at h
      simp [dropTrailUnd, h]
    | cons d r =>
      have h2 : dropTrailUnd (d :: r) = d :: r := ih (by simpa [lastNotUnd] using h)
      conv_lhs => rw [dropTrailUnd, h2]

theorem pyToLower_id (c : Char) (h : isSlugChar c = true) : pyToLower c = c := by
  have : ¬ (65 ≤ c.toNat ∧ c.toNat ≤ 90) := by
    rcases isSlugChar_cases c h with h1 | h1 | h1
    · omega
    · omega
    · subst h1; decide
  simp [pyToLower, this]

theorem map_pyToLower_id (l : List Char) (h : l.all isSlugChar = true) :
    l.map pyToLower = l := by
  induction l with
  | nil => rfl
  | cons c cs ih =>
    simp only [List.all_cons, Bool.and_eq_true] at h
    simp [pyToLower_id c h.1, ih h.2]

theorem pySlugify_id (l : List Char) (h : canonSlug l = true) : pySlugify l = l := by
  simp only [canonSlug, Bool.and_eq_true] at h
  obtain ⟨⟨⟨hall, hnd⟩, hhead⟩, hlast⟩ := h
  have h1 : pyNFKDStrip l = l := pyNFKDStrip_id l hall
  have h2 : subNonAlnum l = l := (subAux_id l hall hnd).1
  have h3 : stripUnd l = l := by
    simp only [stripUnd, dropWhile_isUnd_id l hhead, dropTrailUnd_id l hlast]
  have h4 : l.map pyToLower = l := map_pyToLower_id l hall
  have h5 : dedupeUndAux false l = l := (dedupeUndAux_id l hnd).1
  simp only [pySlugify, h1, h2, h3, h4, h5]

theorem pySlugify_idem (l : List Char) : pySlugify (pySlugify l) = pySlugify l :=
  pySlugify_id _ (canonSlug_pySlugify l)

/-! ## Column mapping: `column_mapping.py::_load_mapping`, `_infer_mapping_from_df`,
`apply_column_mapping`, and `streamlit_app_cefet.py::apply_mapping`

A parsed CSV / dataframe is a header row plus records.  Reading a cell by
column name raises `KeyError` in Python when the column is absent; this is the
`Except.error` case.  Python dictionaries are modelled as association lists
with the insert-replaces-existing-key semantics of `dictInsert`.
-/

/-- A parsed tabular file: column names and rows of cells (each row aligned
with `cols`). -/
structure PDf where
  cols : List String
  rows : List (List String)
deriving DecidableEq

/-- Reading `r["name"]` from a pandas row: `KeyError` when the column is
missing. -/
def getCell (cols : List String) (row : List String) (c : String) : Except String String :=
  match cols.indexOf? c with
  | none => Except.error "KeyError"
  | some i => Except.ok (row.getD i "")

/-- Python `dict` assignment `m[k] = v`: replace the value of an existing key,
otherwise append the new binding. -/
def dictInsert (m : List (String × String)) (k v : String) : List (String × String) :=
  if m.any (fun p => p.1 = k) then m.map (fun p => if p.1 = k then (k, v) else p)
  else m ++ [(k, v)]

/-- Python `str.lower` for header names (the headers relevant to the mapping
logic are ASCII). -/
def pyLower (s : String) : String :=
  String.mk (s.data.map pyToLower)

/-- The four required logical columns of a mapping file
(`column_mapping.py` line 23). -/
def requiredCols : List String :=
  ["coluna_original", "classe", "rotulo_publico", "nome_tecnico"]

/-- `{c.lower(): c for c in df.columns}` (line 26): later duplicates override
earlier ones, as in a Python dict comprehension. -/
def lowerCaseDict (cols : List String) : List (String × String) :=
  cols.foldl (fun m c => dictInsert m (pyLower c) c) []

/-- Lines 24-30 of `column_mapping.py`: if the four required columns are not
all present (case-insensitively), rename case-variants to the canonical
lower-case names; otherwise keep the header as is. -/
def loadRename (df : PDf) : List String :=
  if requiredCols.all (fun rc => (df.cols.map pyLower).contains rc) then df.cols
  else
    let cd := lowerCaseDict df.cols
    let rn :=
      dictInsert (dictInsert (dictInsert (dictInsert []
        ((List.lookup "coluna_original" cd).getD "coluna_original") "coluna_original")
        ((List.lookup "classe" cd).getD "classe") "classe")
        ((List.lookup "rotulo_publico" cd).getD "rotulo_publico") "rotulo_publico")
        ((List.lookup "nome_tecnico" cd).getD "nome_tecnico") "nome_tecnico"
    df.cols.map (fun c => (List.lookup c rn).getD c)

/-- The row loop of `_load_mapping` (lines 31-42): read the four cells of each
record (`KeyError` propagates), and accumulate the `mapping`, `labels` and
`classes` dictionaries; a record only contributes when `orig` and `tech` are
both non-empty (Python truthiness of strings). -/
def loadLoop (cols : List String) :
    List (List String) → List (String × String) → List (String × String) →
    List (String × String) →
    Except String (List (String × String) × List (String × String) × List (String × String))
  | [], mapping, labels, classes => Except.ok (mapping, labels, classes)
  | row :: rest, mapping, labels, classes => do
    let orig ← getCell cols row "coluna_original"
    let tech ← getCell cols row "nome_tecnico"
    let lab ← getCell cols row "rotulo_publico"
    let cls ← getCell cols row "classe"
    if orig ≠ "" ∧ tech ≠ "" then
      loadLoop cols rest (dictInsert mapping orig tech)
        (dictInsert labels tech (if lab ≠ "" then lab else orig))
        (dictInsert classes tech (if cls ≠ "" then cls else ""))
    else
      loadLoop cols rest mapping labels classes

/-- `column_mapping.py::_load_mapping`.  The file-system read is out of the
model: the argument is `none` when `Path(path).exists()` is false, otherwise
the dataframe `pd.read_csv` produced (a single read with pandas defaults —
the source attempts no alternative delimiter or encoding).  The result is
`none` for a missing file and otherwise the three dictionaries; a `KeyError`
raised while reading a malformed file propagates as `Except.error`. -/
def load_mapping (input : Option PDf) :
    Except String (Option (List (String × String) × List (String × String) ×
      List (String × String))) :=
  match input with
  | none => Except.ok none
  | some df => (loadLoop (loadRename df) df.rows [] [] []).map some

/-- `column_mapping.py::_infer_mapping_from_df` restricted to the `mapping`
component: every column maps to its slug.  The Python dict is keyed by the
original header and stores `_slugify(col)`; since the stored value is a
function of the key alone, an association list with first-match lookup has
the same lookup behaviour as the dict. -/
def inferMapping (cols : List String) : List (String × String) :=
  cols.map (fun c => (c, slugify c))

/-- `pd.DataFrame.rename(columns=mapping)` on the header row: every column
name present as a key of `mapping` is replaced by its value, all others are
kept; no column is dropped and duplicates are not resolved. -/
def pdRename (mapping : List (String × String)) (cols : List String) : List String :=
  cols.map (fun c => (List.lookup c mapping).getD c)

/-- `column_mapping.py::apply_column_mapping` restricted to the header row of
`df`: load the mapping (falling back to slug inference only when the file is
missing) and rename the columns. -/
def apply_column_mapping (cols : List String) (input : Option PDf) :
    Except String (List String) := do
  let r ← load_mapping input
  let mapping := match r with
    | none => inferMapping cols
    | some (m, _, _) => m
  Except.ok (pdRename mapping cols)

/-- `streamlit_app_cefet.py::apply_mapping`: with an empty mapping the frame
is returned unchanged; otherwise the mapping is restricted to the columns
present in the frame and applied via `pd.DataFrame.rename`. -/
def apply_mapping (cols : List String) (col_to_tech : List (String × String)) :
    List String :=
  if col_to_tech = [] then cols
  else
    let cols_to_rename := col_to_tech.filter (fun p => cols.contains p.1)
    pdRename cols_to_rename cols

/-! ## Deduplication: `streamlit_app.py::processar_dados` and
`streamlit_app_cefet.py::process_data`

Both call `df.drop_duplicates(subset=['respondent_id'], keep='first')`.
A data row is a respondent identifier plus the remaining cells. -/

/-- One row of the response table: the `respondent_id` cell and the remaining
cells in column order. -/
structure RRow where
  rid : Nat
  rest : List (Option String)
deriving DecidableEq

/-- `df.drop_duplicates(subset=['respondent_id'], keep='first')`: keep a row
exactly when its `respondent_id` has not occurred on an earlier row; the
accumulator holds the identifiers already seen. -/
def dropDupById (seen : List Nat) : List RRow → List RRow
  | [] => []
  | r :: rs =>
    if r.rid ∈ seen then dropDupById seen rs
    else r :: dropDupById (r.rid :: seen) rs

/-- `processar_dados` / `process_data`: the deduplicated table plus the
statistics (total rows, unique rows, removed rows).  The percentage statistic
of `processar_dados` is a direct quotient of these and is omitted. -/
def processar_dados (t : List RRow) : List RRow × Nat × Nat × Nat :=
  let u := dropDupById [] t
  (u, t.length, u.length, t.length - u.length)

/-! ## Likert aggregation: `JOAO-cefet-main/streamlit_app.py` -/

/-- `LIKERT_NEUTROS` (line 23). -/
def LIKERT_NEUTROS : List String :=
  ["Não observado", "Nao observado", "Não se aplica", "Nao se aplica"]

/-- `LIKERT_ORDER` (line 22). -/
def LIKERT_ORDER : List String :=
  ["1 Muito ruim", "2 Ruim", "3 Razoável", "4 Boa", "5 Excelente"]

/-- `LIKERT_TO_INDEX` (lines 32-38). -/
def LIKERT_TO_INDEX : List (String × ℚ) :=
  [("1 Muito ruim", 20), ("2 Ruim", 40), ("3 Razoável", 60), ("4 Boa", 80),
    ("5 Excelente", 100)]

/-- The mask `~series.isin(LIKERT_NEUTROS) & series.notna()` applied to a
series: the non-missing entries whose text is not a neutral marker. -/
def validData (s : List (Option String)) : List String :=
  (s.filterMap id).filter (fun v => ¬ LIKERT_NEUTROS.contains v)

/-- `valid_data.map(LIKERT_TO_INDEX)` with the skip-NaN behaviour of
`Series.mean`: entries that miss the dictionary become float NaN and are
dropped from both the numerator and the denominator of the mean. -/
def mappedVals (s : List (Option String)) : List ℚ :=
  (validData s).filterMap (fun v => List.lookup v LIKERT_TO_INDEX)

/-- Result type of `likert_to_index`: the mean is a float that can be NaN
(every valid entry missed the dictionary). -/
inductive LikertMean where
  | nan : LikertMean
  | val : ℚ → LikertMean
deriving DecidableEq

/-- `JOAO-cefet-main/streamlit_app.py::likert_to_index`: `None` when no
non-neutral non-missing entry exists, otherwise the skip-NaN mean of the
mapped values (NaN when every mapped value is NaN). -/
def likert_to_index (s : List (Option String)) : Option LikertMean :=
  if validData s = [] then none
  else if mappedVals s = [] then some LikertMean.nan
  else some (LikertMean.val ((mappedVals s).sum / (mappedVals s).length))

/-! ## `create_likert_matrix` (lines 136-160), per question

For one question column the loop body filters out the rows whose value is a
neutral marker (`~df[col].isin(LIKERT_NEUTROS)` keeps missing values), counts
distinct respondents per canonical rating (`groupby(col)[id_col].nunique()
.reindex(LIKERT_ORDER).fillna(0)`), takes the distinct-respondent total of
the filtered frame as the percentage base, and emits one record per canonical
rating when that base is positive — and none at all otherwise. -/

/-- One row of the survey table as seen by one question: the respondent
identifier and the cell of the question column. -/
structure LRow where
  rid : Nat
  val : Option String
deriving DecidableEq

/-- `df[col].isin(LIKERT_NEUTROS)` on one cell: missing values are not in the
set. -/
def isNeutro : Option String → Bool
  | some s => LIKERT_NEUTROS.contains s
  | none => false

/-- `valid_responses = df[~df[col].isin(LIKERT_NEUTROS)]`. -/
def validResponses (t : List LRow) : List LRow :=
  t.filter (fun r => ¬ isNeutro r.val)

/-- `valid_responses.groupby(col)[id_col].nunique()` at one rating value. -/
def lmCounts (t : List LRow) (v : String) : Nat :=
  (((validResponses t).filter (fun r => r.val = some v)).map (fun r => r.rid)).dedup.length

/-- `total = valid_responses[id_col].nunique()`. -/
def lmTotal (t : List LRow) : Nat :=
  (((validResponses t).map (fun r => r.rid)).dedup.length)

/-- One record appended by the loop: rating label, distinct-respondent count,
percentage (an exact rational; the source rounds the float to one decimal
before display) and the base. -/
structure LMEntry where
  resposta : String
  contagem : Nat
  percentual : ℚ
  total : Nat
deriving DecidableEq

/-- The records `create_likert_matrix` emits for one question. -/
def create_likert_matrix (t : List LRow) : List LMEntry :=
  if 0 < lmTotal t then
    LIKERT_ORDER.map (fun v =>
      ⟨v, lmCounts t v, (lmCounts t v : ℚ) / (lmTotal t : ℚ) * 100, lmTotal t⟩)
  else []

/-! ## Distinct-respondent counting in `show_retention_and_evasion`
(lines 397-401): `counts = df.groupby(col)[id_col].nunique()` with
`total = df[id_col].nunique()`.  `groupby` drops missing keys. -/

/-- The distinct category values of the column, in order of first appearance
(`groupby` sorts them; the order is irrelevant to the stated properties). -/
def catValues (t : List LRow) : List String :=
  (t.filterMap (fun r => r.val)).dedup

/-- Distinct respondents having category value `v`. -/
def catCount (t : List LRow) (v : String) : Nat :=
  ((t.filter (fun r => r.val = some v)).map (fun r => r.rid)).dedup.length

/-- `df.groupby(col)[id_col].nunique()` as a list of (category, count). -/
def cbdrCounts (t : List LRow) : List (String × Nat) :=
  (catValues t).map (fun v => (v, catCount t v))

/-- The sum of the per-category counts. -/
def cbdrSum (t : List LRow) : Nat :=
  ((cbdrCounts t).map (fun p => p.2)).sum

/-- `df[id_col].nunique()`. -/
def distinctIds (t : List LRow) : Nat :=
  ((t.map (fun r => r.rid)).dedup.length)

/-! ## Age bucketing

`JOAO-cefet-main/streamlit_app.py::show_detailed_profile` (lines 824-859):
coerce the age column with `pd.to_numeric(errors='coerce')`, bucket with
`pd.cut(bins=[0, 19, 25, 30, 100], labels=[...])` (intervals open on the left
and closed on the right; values outside every bin become missing), then count
distinct respondents per bucket with `groupby('faixa_etaria')[id_col]
.nunique()` — a groupby over a categorical column, which emits every declared
category in declaration order, including empty ones.

`streamlit_app_cefet.py::show_profile_analysis` (lines 183-199) applies
`pd.cut` to the raw column without any numeric coercion; on a column that
contains a string value `pd.cut` raises a `TypeError`. -/

/-- A raw spreadsheet cell of the age column: numeric, text, or missing. -/
inductive AgeCell where
  | numC : ℚ → AgeCell
  | strC : String → AgeCell
  | naC : AgeCell
deriving DecidableEq

/-- A row of the table as seen by the age analysis. -/
structure ARow where
  rid : Nat
  idade : AgeCell
deriving DecidableEq

/-- Model of the numeric parsing inside `pd.to_numeric` restricted to
unsigned decimal integer literals; any other text coerces to NaN under
`errors='coerce'`. -/
def parseNum (s : String) : Option ℚ :=
  if s.data ≠ [] ∧ s.data.all (fun c => decide (48 ≤ c.toNat ∧ c.toNat ≤ 57)) then
    some ((s.data.foldl (fun n c => n * 10 + (c.toNat - 48)) 0 : ℕ) : ℚ)
  else none

/-- `pd.to_numeric(cell, errors='coerce')`. -/
def toNumeric : AgeCell → Option ℚ
  | AgeCell.numC q => some q
  | AgeCell.strC s => parseNum s
  | AgeCell.naC => none

/-- The bucket labels, in the fixed order of the `labels` argument. -/
def FAIXAS : List String :=
  ["Até 19", "20-25", "26-30", "Acima de 30"]

/-- `pd.cut(x, bins=[0, 19, 25, 30, 100], labels=FAIXAS)` on one number:
the intervals are (0,19], (19,25], (25,30], (30,100]; anything else becomes
missing. -/
def bucketOf (q : ℚ) : Option String :=
  if 0 < q ∧ q ≤ 19 then some "Até 19"
  else if 19 < q ∧ q ≤ 25 then some "20-25"
  else if 25 < q ∧ q ≤ 30 then some "26-30"
  else if 30 < q ∧ q ≤ 100 then some "Acima de 30"
  else none

/-- The bucket of one row in `show_detailed_profile`: coerce, then cut. -/
def ageBucketRow (r : ARow) : Option String :=
  (toNumeric r.idade).bind bucketOf

/-- `df_temp.groupby('faixa_etaria')[id_col].nunique()` of
`show_detailed_profile`: one (label, distinct-respondent count) pair per
declared category, in declaration order, empty buckets included; rows whose
bucket is missing count nowhere. -/
def ageBucketCounts (t : List ARow) : List (String × Nat) :=
  FAIXAS.map (fun b =>
    (b, ((t.filter (fun r => ageBucketRow r = some b)).map (fun r => r.rid)).dedup.length))

/-- The bucket of one row in `show_profile_analysis`, where the cell reaches
`pd.cut` uncoerced: a numeric cell is cut, a missing cell stays missing, and
a text cell makes the whole `pd.cut` call raise. -/
def cutRaw : AgeCell → Except String (Option String)
  | AgeCell.numC q => Except.ok (bucketOf q)
  | AgeCell.strC _ => Except.error "TypeError"
  | AgeCell.naC => Except.ok none

/-- `show_profile_analysis` bucket counting
(`value_counts().sort_index()` on the cut column): `pd.cut` raises a
`TypeError` as soon as the column contains a text cell; otherwise one row per
declared category in category order, counting rows (not distinct
respondents). -/
def profileAgeCounts (t : List ARow) : Except String (List (String × Nat)) :=
  if t.any (fun r => match r.idade with | AgeCell.strC _ => true | _ => false) then
    Except.error "TypeError"
  else
    Except.ok (FAIXAS.map (fun b =>
      (b, (t.filter (fun r =>
        (match r.idade with | AgeCell.numC q => bucketOf q | _ => none) = some b)).length)))

/-! ## Helper lemmas for the counting aggregations -/

theorem dedup_length_le_of_subset {l m : List Nat} (h : l ⊆ m) :
    l.dedup.length ≤ m.dedup.length := by
  rw [← List.card_toFinset, ← List.card_toFinset]
  apply Finset.card_le_card
  intro x hx
  rw [List.mem_toFinset] at hx ⊢
  exact h hx

theorem catCount_le_distinctIds (t : List LRow) (v : String) :
    catCount t v ≤ distinctIds t := by
  apply dedup_length_le_of_subset
  exact List.map_subset _ (List.filter_subset' t)

theorem lmCounts_le_lmTotal (t : List LRow) (v : String) :
    lmCounts t v ≤ lmTotal t := by
  apply dedup_length_le_of_subset
  exact List.map_subset _ (List.filter_subset' (validResponses t))

theorem dropDupById_mem (t : List RRow) : ∀ seen, ∀ r ∈ dropDupById seen t,
    r ∈ t ∧ r.rid ∉ seen := by
  induction t with
  | nil => intro seen r hr; cases hr
  | cons s rest ih =>
    intro seen r hr
    by_cases hs : s.rid ∈ seen
    · rw [show dropDupById seen (s :: rest) = dropDupById seen rest by
        simp [dropDupById, hs]] at hr
      obtain ⟨h1, h2⟩ := ih seen r hr
      exact ⟨List.mem_cons_of_mem s h1, h2⟩
    · rw [show dropDupById seen (s :: rest) = s :: dropDupById (s.rid :: seen) rest by
        simp [dropDupById, hs]] at hr
      rcases List.mem_cons.mp hr with h | h
      · exact ⟨h ▸ List.mem_cons_self s rest, h ▸ hs⟩
      · obtain ⟨h1, h2⟩ := ih (s.rid :: seen) r h
        exact ⟨List.mem_cons_of_mem s h1, fun hmem => h2 (List.mem_cons_of_mem _ hmem)⟩

theorem dropDupById_find (t : List RRow) : ∀ seen, ∀ r ∈ dropDupById seen t,
    t.find? (fun s => s.rid == r.rid) = some r := by
  induction t with
  | nil => intro seen r hr; cases hr
  | cons s rest ih =>
    intro seen r hr
    by_cases hs : s.rid ∈ seen
    · rw [show dropDupById seen (s :: rest) = dropDupById seen rest by
        simp [dropDupById, hs]] at hr
      have hne : s.rid ≠ r.rid := by
        intro he
        exact (dropDupById_mem rest seen r hr).2 (he ▸ hs)
      rw [List.find?_cons]
      have : (s.rid == r.rid) = false := by simpa using hne
      rw [this]
      exact ih seen r hr
    · rw [show dropDupById seen (s :: rest) = s :: dropDupById (s.rid :: seen) rest by
        simp [dropDupById, hs]] at hr
      rcases List.mem_cons.mp hr with h | h
      · subst h
        rw [List.find?_cons]
        have : (r.rid == r.rid) = true := beq_self_eq_true _
        rw [this]
      · have hne : s.rid ≠ r.rid := by
          intro he
          exact (dropDupById_mem rest (s.rid :: seen) r h).2 (he ▸ List.mem_cons_self _ _)
        rw [List.find?_cons]
        have : (s.rid == r.rid) = false := by simpa using hne
        rw [this]
        exact ih (s.rid :: seen) r h

theorem dropDupById_nodup (t : List RRow) : ∀ seen,
    ((dropDupById seen t).map (fun r => r.rid)).Nodup := by
  induction t with
  | nil => intro seen; simp [dropDupById]
  | cons s rest ih =>
    intro seen
    by_cases hs : s.rid ∈ seen
    · rw [show dropDupById seen (s :: rest) = dropDupById seen rest by
        simp [dropDupById, hs]]
      exact ih seen
    · rw [show dropDupById seen (s :: rest) = s :: dropDupById (s.rid :: seen) rest by
        simp [dropDupById, hs]]
      rw [List.map_cons, List.nodup_cons]
      refine ⟨?_, ih (s.rid :: seen)⟩
      intro hmem
      obtain ⟨r, hr, hrid⟩ := List.mem_map.mp hmem
      exact (dropDupById_mem rest (s.rid :: seen) r hr).2 (hrid ▸ List.mem_cons_self _ _)

theorem dropDupById_cover (t : List RRow) : ∀ seen, ∀ r ∈ t, r.rid ∉ seen →
    ∃ x ∈ dropDupById seen t, x.rid = r.rid := by
  induction t with
  | nil => intro seen r hr; cases hr
  | cons s rest ih =>
    intro seen r hr hseen
    by_cases hs : s.rid ∈ seen
    · rw [show dropDupById seen (s :: rest) = dropDupById seen rest by
        simp [dropDupById, hs]]
      rcases List.mem_cons.mp hr with h | h
      · exact absurd (h ▸ hseen) (fun hx => hx (h ▸ hs))
      · exact ih seen r h hseen
    · rw [show dropDupById seen (s :: rest) = s :: dropDupById (s.rid :: seen) rest by
        simp [dropDupById, hs]]
      rcases List.mem_cons.mp hr with h | h
      · exact ⟨s, List.mem_cons_self _ _, by rw [h]⟩
      · by_cases hrid : r.rid = s.rid
        · exact ⟨s, List.mem_cons_self _ _, hrid.symm⟩
        · obtain ⟨x, hx1, hx2⟩ := ih (s.rid :: seen) r h (by
            intro hmem
            rcases List.mem_cons.mp hmem with hm | hm
            · exact hrid hm
            · exact hseen hm)
          exact ⟨x, List.mem_cons_of_mem s hx1, hx2⟩

theorem lookup_filter_key (c : String) (m : List (String × String)) (q : String → Bool)
    (hq : q c = true) :
    List.lookup c (m.filter (fun p => q p.1)) = List.lookup c m := by
  induction m with
  | nil => rfl
  | cons e es ih =>
    obtain ⟨k, v⟩ := e
    by_cases hk : c = k
    · subst hk
      simp [List.filter_cons, hq, List.lookup_cons]
    · by_cases hqk : q k = true
      · simp only [List.filter_cons, hqk, if_pos]
        rw [List.lookup_cons, List.lookup_cons]
        have : (c == k) = false := by simpa using hk
        rw [this]
        exact ih
      · simp only [Bool.not_eq_true] at hqk
        simp only [List.filter_cons, hqk]
        rw [List.lookup_cons]
        have : (c == k) = false := by simpa using hk
        rw [this]
        exact ih

theorem lookup_inferMapping (cols : List String) (c : String) (hc : c ∈ cols) :
    List.lookup c (inferMapping cols) = some (slugify c) := by
  induction cols with
  | nil => cases hc
  | cons d ds ih =>
    rw [show inferMapping (d :: ds) = (d, slugify d) :: inferMapping ds from rfl,
      List.lookup_cons]
    by_cases hd : c = d
    · subst hd
      simp
    · have : (c == d) = false := by simpa using hd
      rw [this]
      exact ih (by
        rcases List.mem_cons.mp hc with h | h
        · exact absurd h hd
        · exact h)

theorem filterMap_length_of_all_isSome (l : List String)
    (h : ∀ v ∈ l, (List.lookup v LIKERT_TO_INDEX).isSome) :
    (l.filterMap (fun v => List.lookup v LIKERT_TO_INDEX)).length = l.length := by
  induction l with
  | nil => rfl
  | cons c cs ih =>
    have hc := h c (List.mem_cons_self _ _)
    obtain ⟨q, hq⟩ := Option.isSome_iff_exists.mp hc
    rw [List.filterMap_cons, hq]
    simp only [List.length_cons]
    rw [ih (fun v hv => h v (List.mem_cons_of_mem _ hv))]

theorem indexOf?_eq_none_of_not_mem (c : String) (cols : List String) (h : c ∉ cols) :
    cols.indexOf? c = none := by
  induction cols with
  | nil => rfl
  | cons d ds ih =>
    have hd : c ≠ d := fun he => h (he ▸ List.mem_cons_self _ _)
    have : (d == c) = false := by
      simp only [beq_eq_false_iff_ne, ne_eq]
      exact fun he => hd he.symm
    simp only [List.indexOf?, List.findIdx?_cons, this, cond_false]
    rw [List.findIdx?_succ]
    have := ih (fun hm => h (List.mem_cons_of_mem _ hm))
    simp only [List.indexOf?] at this
    simp [this]

/-! ## Claim theorems -/

/-- C1 (counterexample): `processar_dados` removes the second row
`⟨1, ["B"]⟩` even though it differs from the first row `⟨1, ["A"]⟩` in a
non-identifier column — deduplication is keyed on `respondent_id` alone, not
on textual identity of the whole row. -/
theorem processar_dados_removes_differing_row :
    (processar_dados [⟨1, [some "A"]⟩, ⟨1, [some "B"]⟩]).1 = [⟨1, [some "A"]⟩] ∧
    (⟨1, [some "B"]⟩ : RRow) ∉ (processar_dados [⟨1, [some "A"]⟩, ⟨1, [some "B"]⟩]).1 := by
  decide

/-- C1 (amended): `processar_dados` keeps, for every respondent identifier
occurring in the table, exactly the first row bearing it: the resulting
identifiers are pairwise distinct, every kept row is the first row of the
input with its identifier, and every input row has a representative with the
same identifier in the output — regardless of the other columns. -/
theorem processar_dados_first_per_id (t : List RRow) :
    ((processar_dados t).1.map (fun r => r.rid)).Nodup ∧
    (∀ r ∈ (processar_dados t).1, t.find? (fun s => s.rid == r.rid) = some r) ∧
    (∀ r ∈ t, ∃ x ∈ (processar_dados t).1, x.rid = r.rid) := by
  refine ⟨?_, ?_, ?_⟩
  · exact dropDupById_nodup t []
  · exact fun r hr => dropDupById_find t [] r hr
  · exact fun r hr => dropDupById_cover t [] r hr (by simp)

/-- C1 (witness for the amended theorem): on a concrete two-row table the
kept row `⟨1, ["A"]⟩` is found as the first row with identifier 1. -/
theorem processar_dados_first_per_id_witness :
    [(⟨1, [some "A"]⟩ : RRow), ⟨1, [some "B"]⟩, ⟨2, []⟩].find?
      (fun s => s.rid == 1) = some ⟨1, [some "A"]⟩ := by
  have h := (processar_dados_first_per_id
    [⟨1, [some "A"]⟩, ⟨1, [some "B"]⟩, ⟨2, []⟩]).2.1 ⟨1, [some "A"]⟩ (by decide)
  exact h

/-- C5 (counterexample): `_slugify` performs no truncation: the slug of a
121-character alphabetic header has 121 characters, exceeding the claimed
120-character bound. -/
theorem slugify_no_truncation :
    (slugify (String.mk (List.replicate 121 'a'))).length = 121 ∧
    ¬ (slugify (String.mk (List.replicate 121 'a'))).length ≤ 120 := by
  decide

/-- C5 (amended): every character of `slugify h` is in `[a-z0-9_]` — the
output always matches `^[a-z0-9_]*$` and the function is total — but its
length is unbounded because the source never truncates. -/
theorem slugify_chars (s : String) : (slugify s).data.all isSlugChar = true := by
  have h := canonSlug_pySlugify s.data
  simp only [canonSlug, Bool.and_eq_true] at h
  exact h.1.1.1

/-- C9: `_slugify` is idempotent: slugifying an already-slugified header
changes nothing. -/
theorem slugify_idempotent (s : String) : slugify (slugify s) = slugify s := by
  simp only [slugify]
  exact congrArg String.mk (pySlugify_idem s.data)

/-- C4 (counterexample): `apply_mapping` with the two original headers `a`
and `b` both mapped to the technical name `x` yields the column list
`["x", "x"]` — a duplicate column name, contradicting the claimed
no-duplicate guarantee (pandas `rename` resolves nothing). -/
theorem apply_mapping_duplicate_names :
    apply_mapping ["a", "b"] [("a", "x"), ("b", "x")] = ["x", "x"] ∧
    ¬ (apply_mapping ["a", "b"] [("a", "x"), ("b", "x")]).Nodup := by
  decide

/-- C4 (amended): with a non-empty mapping, `apply_mapping` renames exactly
the columns present in both the table and the mapping (each to its mapped
technical name), leaves every other column unchanged, and never drops a
column (the header list keeps its length); however, when two original
headers map to the same technical name the resulting column list contains
duplicate names — both data columns are retained, none is overwritten, but
the collision is not resolved. -/
theorem apply_mapping_renames (cols : List String) (m : List (String × String))
    (hm : m ≠ []) :
    (apply_mapping cols m).length = cols.length ∧
    apply_mapping cols m = cols.map (fun c => (List.lookup c m).getD c) ∧
    (∀ c ∈ cols, List.lookup c m = none → c ∈ apply_mapping cols m) := by
  have hmain : apply_mapping cols m = cols.map (fun c => (List.lookup c m).getD c) := by
    rw [show apply_mapping cols m =
      pdRename (m.filter (fun p => cols.contains p.1)) cols by simp [apply_mapping, hm]]
    apply List.map_congr_left
    intro c hc
    have hcc : cols.contains c = true := List.elem_eq_true_of_mem hc
    rw [lookup_filter_key c m _ hcc]
  refine ⟨by rw [hmain]; simp, hmain, ?_⟩
  intro c hc hnone
  rw [hmain]
  exact List.mem_map.mpr ⟨c, hc, by rw [hnone]; rfl⟩

/-- C4 (witness for the amended theorem): a concrete rename with one mapped
and one unmapped column. -/
theorem apply_mapping_renames_witness :
    apply_mapping ["a", "b"] [("a", "x")] = ["x", "b"] := by
  have h := (apply_mapping_renames ["a", "b"] [("a", "x")] (by decide)).2.1
  rw [h]
  decide

/-- C6 (counterexample): one respondent (id 1) appearing with the two
distinct category values `A` and `B` contributes to both buckets: the sum of
the per-category distinct-respondent counts is 2, strictly greater than the
single distinct respondent identifier — the claimed bound fails. -/
theorem cbdr_sum_exceeds_distinct :
    cbdrSum [⟨1, some "A"⟩, ⟨1, some "B"⟩] = 2 ∧
    distinctIds [⟨1, some "A"⟩, ⟨1, some "B"⟩] = 1 ∧
    ¬ cbdrSum [⟨1, some "A"⟩, ⟨1, some "B"⟩] ≤
      distinctIds [⟨1, some "A"⟩, ⟨1, some "B"⟩] := by
  decide

/-- C6 (amended): each per-category distinct-respondent count is at most the
number of distinct respondent identifiers of the table (a respondent counts
at most once per bucket), and the sum of the counts is bounded by the number
of distinct non-missing category values times the number of distinct
respondents; a respondent appearing with k distinct categories contributes
to k buckets, so the sum can exceed the distinct-respondent total. -/
theorem cbdr_counts_bounded (t : List LRow) :
    (∀ v ∈ catValues t, catCount t v ≤ distinctIds t) ∧
    cbdrSum t ≤ (catValues t).length * distinctIds t := by
  refine ⟨fun v _ => catCount_le_distinctIds t v, ?_⟩
  have hb : ∀ x ∈ (cbdrCounts t).map (fun p => p.2), x ≤ distinctIds t := by
    intro x hx
    obtain ⟨p, hp, hpx⟩ := List.mem_map.mp hx
    obtain ⟨v, _, hv⟩ := List.mem_map.mp hp
    rw [← hpx, ← hv]
    exact catCount_le_distinctIds t v
  have := List.sum_le_card_nsmul ((cbdrCounts t).map (fun p => p.2)) (distinctIds t) hb
  simpa [cbdrSum, cbdrCounts, smul_eq_mul] using this

/-- C6 (witness for the amended theorem): the bucket of category `A` on the
concrete two-row table counts at most the distinct respondents. -/
theorem cbdr_counts_bounded_witness :
    catCount [⟨1, some "A"⟩, ⟨1, some "B"⟩] "A" ≤
      distinctIds [⟨1, some "A"⟩, ⟨1, some "B"⟩] :=
  (cbdr_counts_bounded [⟨1, some "A"⟩, ⟨1, some "B"⟩]).1 "A" (by decide)

/-- C2: `likert_to_index` returns `None` exactly when the series has no
non-neutral, non-missing entry (so an all-neutral series yields `None`, never
0), and when every valid entry matches a canonical label it returns the
arithmetic mean of the mapped indices with the number of valid entries as
denominator. -/
theorem likert_to_index_mean (s : List (Option String)) :
    (likert_to_index s = none ↔ validData s = []) ∧
    (validData s ≠ [] →
      (∀ v ∈ validData s, (List.lookup v LIKERT_TO_INDEX).isSome) →
      likert_to_index s =
        some (LikertMean.val ((mappedVals s).sum / ((validData s).length : ℚ)))) := by
  by_cases hv : validData s = []
  · refine ⟨?_, fun h _ => absurd hv h⟩
    simp [likert_to_index, hv]
  · constructor
    · constructor
      · intro h
        by_cases hm : mappedVals s = []
        · simp [likert_to_index, hv, hm] at h
        · simp [likert_to_index, hv, hm] at h
      · intro h
        exact absurd h hv
    · intro _ hall
      have hlen : (mappedVals s).length = (validData s).length :=
        filterMap_length_of_all_isSome (validData s) hall
      have hm : mappedVals s ≠ [] := by
        intro he
        rw [he] at hlen
        exact hv (List.length_eq_zero.mp hlen.symm)
      simp only [likert_to_index, if_neg hv, if_neg hm]
      rw [hlen]

/-- C2 (witness): a series with one missing entry, one neutral marker and the
two ratings 5 and 1 has index (100 + 20) / 2 = 60. -/
theorem likert_to_index_mean_witness :
    likert_to_index [some "5 Excelente", none, some "Não observado",
      some "1 Muito ruim"] = some (LikertMean.val 60) := by
  have h := (likert_to_index_mean [some "5 Excelente", none, some "Não observado",
    some "1 Muito ruim"]).2 (by decide) (by decide)
  rw [h]
  have h1 : mappedVals [some "5 Excelente", none, some "Não observado",
      some "1 Muito ruim"] = [100, 20] := by decide
  have h2 : (validData [some "5 Excelente", none, some "Não observado",
      some "1 Muito ruim"]).length = 2 := by decide
  rw [h1, h2]
  norm_num

/-- C10: when at least one non-neutral, non-missing value exists but none of
them matches a canonical Likert label, `likert_to_index` returns the float
NaN (the skip-NaN mean of an all-NaN series) — not `None` and not 0; `None`
arises only from a series with zero valid entries. -/
theorem likert_to_index_unmatched_nan (s : List (Option String)) :
    (validData s ≠ [] → mappedVals s = [] → likert_to_index s = some LikertMean.nan) ∧
    (likert_to_index s = none → validData s = []) := by
  constructor
  · intro hv hm
    simp [likert_to_index, hv, hm]
  · intro h
    by_contra hv
    by_cases hm : mappedVals s = [] <;> simp [likert_to_index, hv, hm] at h

/-- C10 (witness): the single unmatched text `talvez` yields NaN. -/
theorem likert_to_index_unmatched_nan_witness :
    likert_to_index [some "talvez"] = some LikertMean.nan :=
  (likert_to_index_unmatched_nan [some "talvez"]).1 (by decide) (by decide)

/-- C3 (counterexample): a question whose only response is the neutral marker
yields an empty output — zero rows, not five zero-percentage rows; and with
the two rows `⟨1, missing⟩` and `⟨2, "5 Excelente"⟩` the five percentages sum
to 50, not 100 ± 0.1, because the missing-valued respondent is kept in the
percentage base. -/
theorem create_likert_matrix_counterexample :
    create_likert_matrix [⟨1, some "Não observado"⟩] = [] ∧
    ((create_likert_matrix [⟨1, none⟩, ⟨2, some "5 Excelente"⟩]).map
      (fun e => e.percentual)).sum = 50 := by
  refine ⟨by decide, ?_⟩
  have h1 : lmTotal [⟨1, none⟩, ⟨2, some "5 Excelente"⟩] = 2 := by decide
  have c1 : lmCounts [⟨1, none⟩, ⟨2, some "5 Excelente"⟩] "1 Muito ruim" = 0 := by decide
  have c2 : lmCounts [⟨1, none⟩, ⟨2, some "5 Excelente"⟩] "2 Ruim" = 0 := by decide
  have c3 : lmCounts [⟨1, none⟩, ⟨2, some "5 Excelente"⟩] "3 Razoável" = 0 := by decide
  have c4 : lmCounts [⟨1, none⟩, ⟨2, some "5 Excelente"⟩] "4 Boa" = 0 := by decide
  have c5 : lmCounts [⟨1, none⟩, ⟨2, some "5 Excelente"⟩] "5 Excelente" = 1 := by decide
  rw [show create_likert_matrix [⟨1, none⟩, ⟨2, some "5 Excelente"⟩] =
    LIKERT_ORDER.map (fun v => ⟨v, lmCounts [⟨1, none⟩, ⟨2, some "5 Excelente"⟩] v,
      (lmCounts [⟨1, none⟩, ⟨2, some "5 Excelente"⟩] v : ℚ) /
      (lmTotal [⟨1, none⟩, ⟨2, some "5 Excelente"⟩] : ℚ) * 100,
      lmTotal [⟨1, none⟩, ⟨2, some "5 Excelente"⟩]⟩) by
    simp [create_likert_matrix, h1]]
  rw [show LIKERT_ORDER = ["1 Muito ruim", "2 Ruim", "3 Razoável", "4 Boa",
    "5 Excelente"] from rfl]
  simp only [List.map_cons, List.map_nil, List.sum_cons, List.sum_nil]
  rw [h1, c1, c2, c3, c4, c5]
  norm_num

/-- C3 (amended): whenever the distinct-respondent base of a question is
positive — the base being the distinct respondents over the rows whose value
is not a neutral marker, missing values included — the output has exactly 5
rows, one per canonical rating in the fixed order, whose counts are distinct
respondents bounded by the base and whose percentage times the base equals
the count times 100; when the base is zero the question contributes no rows
at all. -/
theorem create_likert_matrix_five_rows (t : List LRow) :
    (0 < lmTotal t →
      ((create_likert_matrix t).map (fun e => e.resposta) = LIKERT_ORDER ∧
       (create_likert_matrix t).length = 5 ∧
       ∀ e ∈ create_likert_matrix t,
         e.total = lmTotal t ∧ e.contagem = lmCounts t e.resposta ∧
         e.contagem ≤ lmTotal t ∧
         e.percentual * (lmTotal t : ℚ) = (e.contagem : ℚ) * 100)) ∧
    (lmTotal t = 0 → create_likert_matrix t = []) := by
  constructor
  · intro ht
    rw [show create_likert_matrix t = LIKERT_ORDER.map (fun v =>
      ⟨v, lmCounts t v, (lmCounts t v : ℚ) / (lmTotal t : ℚ) * 100, lmTotal t⟩) by
      simp [create_likert_matrix, ht]]
    refine ⟨?_, ?_, ?_⟩
    · rw [List.map_map,
        show ((fun (e : LMEntry) => e.resposta) ∘ (fun v => (⟨v, lmCounts t v,
          (lmCounts t v : ℚ) / (lmTotal t : ℚ) * 100, lmTotal t⟩ : LMEntry))) = id from rfl,
        List.map_id]
    · simp [LIKERT_ORDER]
    · intro e he
      obtain ⟨v, hv, he⟩ := List.mem_map.mp he
      subst he
      refine ⟨rfl, rfl, lmCounts_le_lmTotal t v, ?_⟩
      have hne : (lmTotal t : ℚ) ≠ 0 := by
        exact_mod_cast Nat.pos_iff_ne_zero.mp ht
      field_simp
  · intro ht
    simp [create_likert_matrix, ht]

/-- C3 (witness for the amended theorem): a question with one valid rating
has exactly 5 output rows. -/
theorem create_likert_matrix_five_rows_witness :
    (create_likert_matrix [⟨1, some "5 Excelente"⟩]).length = 5 :=
  ((create_likert_matrix_five_rows [⟨1, some "5 Excelente"⟩]).1 (by decide)).2.1

/-- C7 (counterexample): in `streamlit_app_cefet.py::show_profile_analysis`
the age column reaches `pd.cut` without numeric coercion, so the unparseable
value `abc` raises a `TypeError` instead of being treated as missing — no
4-row result is produced. -/
theorem profileAgeCounts_type_error :
    profileAgeCounts [⟨1, AgeCell.strC "abc"⟩] = Except.error "TypeError" ∧
    profileAgeCounts [⟨1, AgeCell.strC "abc"⟩] ≠
      Except.ok [("Até 19", 0), ("20-25", 0), ("26-30", 0), ("Acima de 30", 0)] := by
  refine ⟨rfl, ?_⟩
  intro h
  rw [show profileAgeCounts [⟨1, AgeCell.strC "abc"⟩] = Except.error "TypeError" from
    rfl] at h
  cases h

/-- C7 (amended): the age bucketing of `show_detailed_profile`
(`JOAO-cefet-main`), which does coerce with `pd.to_numeric(errors='coerce')`,
always emits exactly 4 rows in the fixed label order, empty buckets included,
and a row whose age cell fails numeric parsing is excluded from every bucket:
appending such a row never changes any count.  (The `show_profile_analysis`
variant instead raises on unparseable text, see the counterexample.) -/
theorem ageBucketCounts_four_fixed (t : List ARow) :
    ((ageBucketCounts t).map (fun p => p.1) = FAIXAS ∧
     (ageBucketCounts t).length = 4) ∧
    (∀ r : ARow, toNumeric r.idade = none →
      ageBucketCounts (t ++ [r]) = ageBucketCounts t) := by
  refine ⟨⟨?_, ?_⟩, ?_⟩
  · rw [ageBucketCounts, List.map_map,
      show ((fun (p : String × Nat) => p.1) ∘ (fun b => (b,
        ((t.filter (fun r => ageBucketRow r = some b)).map (fun r => r.rid)).dedup.length)))
        = id from rfl, List.map_id]
  · simp [ageBucketCounts, FAIXAS]
  · intro r hr
    have hrow : ageBucketRow r = none := by simp [ageBucketRow, hr]
    unfold ageBucketCounts
    apply List.map_congr_left
    intro b _
    have hfil : (t ++ [r]).filter (fun x => ageBucketRow x = some b) =
        t.filter (fun x => ageBucketRow x = some b) := by
      rw [List.filter_append]
      simp [List.filter_cons, hrow]
    rw [hfil]

/-- C7 (witness for the amended theorem): a table holding only the
unparseable age `abc` buckets exactly like the empty table. -/
theorem ageBucketCounts_four_fixed_witness :
    ageBucketCounts [⟨3, AgeCell.strC "abc"⟩] = ageBucketCounts [] := by
  have h := (ageBucketCounts_four_fixed []).2 ⟨3, AgeCell.strC "abc"⟩ (by decide)
  simpa using h

/-- C8 (counterexample): a mapping file that parses but lacks the four
required logical columns makes `apply_column_mapping` fail hard with the
propagated `KeyError` — there is no `MappingLoadError` and no fallback to
slugification; the slugification fallback happens only when the file does
not exist. -/
theorem load_mapping_malformed_counterexample :
    apply_column_mapping ["Header A"] (some ⟨["a"], [["x"]]⟩) =
      Except.error "KeyError" ∧
    apply_column_mapping ["Header A"] none = Except.ok ["header_a"] := by
  exact ⟨rfl, rfl⟩

/-- C8 (amended): when the mapping file is absent, `apply_column_mapping`
renames every header to its slug; when the file parses but the canonical
`coluna_original` column is still missing after the case-insensitive rename
and at least one data row exists, the row loop raises `KeyError`, which
propagates out of `apply_column_mapping` — the pipeline hard-fails with no
fallback, and no delimiter or encoding retry is attempted (the model reads
the file once with pandas defaults). -/
theorem apply_column_mapping_fallback_and_failure :
    (∀ cols : List String, apply_column_mapping cols none =
      Except.ok (cols.map slugify)) ∧
    (∀ df : PDf, df.rows ≠ [] → "coluna_original" ∉ loadRename df →
      apply_column_mapping df.cols (some df) = Except.error "KeyError") := by
  constructor
  · intro cols
    have hren : pdRename (inferMapping cols) cols = cols.map slugify := by
      apply List.map_congr_left
      intro c hc
      rw [lookup_inferMapping cols c hc]
      rfl
    show Except.ok (pdRename (inferMapping cols) cols) = Except.ok (cols.map slugify)
    rw [hren]
  · intro df hrows hmem
    obtain ⟨row, rest, hr⟩ : ∃ row rest, df.rows = row :: rest := by
      cases hdf : df.rows with
      | nil => exact absurd hdf hrows
      | cons a b => exact ⟨a, b, rfl⟩
    have hget : getCell (loadRename df) row "coluna_original" =
        Except.error "KeyError" := by
      simp [getCell, indexOf?_eq_none_of_not_mem _ _ hmem]
    have hloop : loadLoop (loadRename df) df.rows [] [] [] =
        Except.error "KeyError" := by
      rw [hr]
      show (do
        let orig ← getCell (loadRename df) row "coluna_original"
        let tech ← getCell (loadRename df) row "nome_tecnico"
        let lab ← getCell (loadRename df) row "rotulo_publico"
        let cls ← getCell (loadRename df) row "classe"
        if orig ≠ "" ∧ tech ≠ "" then
          loadLoop (loadRename df) rest (dictInsert [] orig tech)
            (dictInsert [] tech (if lab ≠ "" then lab else orig))
            (dictInsert [] tech (if cls ≠ "" then cls else ""))
        else
          loadLoop (loadRename df) rest [] [] []) = Except.error "KeyError"
      rw [hget]
      rfl
    show (load_mapping (some df)).bind _ = Except.error "KeyError"
    rw [show load_mapping (some df) =
      (loadLoop (loadRename df) df.rows [] [] []).map some from rfl, hloop]
    rfl

/-- C8 (witness for the amended theorem): the header `Idade (anos)` slugifies
on fallback, and the one-column one-row file `⟨["a"], [["x"]]⟩` hard-fails. -/
theorem apply_column_mapping_fallback_witness :
    apply_column_mapping ["Idade (anos)"] none = Except.ok ["idade_anos"] ∧
    apply_column_mapping ["a"] (some ⟨["a"], [["x"]]⟩) = Except.error "KeyError" := by
  constructor
  · have h := apply_column_mapping_fallback_and_failure.1 ["Idade (anos)"]
    rw [h]
    rfl
  · exact apply_column_mapping_fallback_and_failure.2 ⟨["a"], [["x"]]⟩
      (by decide) (by decide)
